import Mathlib

/-!
# OCDScope — verification of spec claims against a shallow embedding

This file embeds the parts of the OCDScope sources that the claims under
study are about:

* `src/buffer.rs` — `SampleBuffer` (`plot_points`, `truncate`) and the
  binary-search helper `index_before_at`;
* `src/gdbremote.rs` — `build_gdb_packet`, `parse_gdb_packet`, and the
  buffering / response-reading state machine of `GDBRemote::read_response`;
* `src/ttstream.rs` — the timestamp-extraction logic of
  `TimestampedTCPStream::receive` and `send`;
* `src/sampler/rttsampler.rs` — the JScope channel-name parser and the
  packet decoder (`RTTScopePacketStructure`);
* `src/sampler/{fakesampler,memsampler,rttsampler}.rs` — the worker-thread
  wrapper that turns a body error into notifications, and the fake
  per-step sample computation of the fake sampler.

Conventions of the embedding:

* `f64` timestamps are modelled by `ℚ` for stored samples and by
  `WithBot (WithTop ℚ)` (adding `-∞` and `+∞`) for query bounds; `NaN` is
  not modelled.  All comparisons performed by the code are order
  comparisons, which this models exactly.
* Bytes are `Nat`s (the code only adds them mod 256 and compares them).
* A Rust panic (out-of-bounds index, `unwrap` on `None`/`Err`) is modelled
  by an explicit `Except`/`Option` failure value, marked by a comment at
  each site.
-/

deriving instance DecidableEq for Except

namespace OCDScope

/-- Extended timeline: `f64` query values including `-∞` (`⊥`) and `+∞` (`⊤`). -/
abbrev Time := WithBot (WithTop ℚ)

/-- Embed a finite timestamp into the extended timeline. -/
def Time.ofQ (q : ℚ) : Time := ((q : WithTop ℚ) : Time)

/-- Rust `egui_plot::PlotPoint` as used by `SampleBuffer`: an `(x, y)` pair of
`f64`s, with `x` the timestamp. -/
structure PlotPoint where
  x : ℚ
  y : ℚ
deriving DecidableEq, Repr

/-- Dummy point standing for an arbitrary memory value; every `getD` using it
is at an index proved in bounds (Rust would panic otherwise, and panicking
sites are modelled explicitly). -/
def dummyPoint : PlotPoint := ⟨0, 0⟩

/-- The binary-search loop of `index_before_at` (buffer.rs lines 140-152):
`a = 0, b = len`; while `a + 1 < b`, bisect at `i = (a+b)/2` and move `b`
down when `samples[i].x > t`, `a` up when `samples[i].x ≤ t`. Returns the
final `a`. -/
def ibaLoop (samples : List PlotPoint) (t : Time) (a b : Nat) : Nat :=
  if _h : a + 1 < b then
    let i := (a + b) / 2
    if t < Time.ofQ (samples.getD i dummyPoint).x then
      ibaLoop samples t a i
    else
      ibaLoop samples t i b
  else
    a
termination_by b - a
decreasing_by
  all_goals simp only [i] at *
  all_goals omega

/-- Rust `index_before_at` (buffer.rs lines 137-162).  The final index
`samples[a]` is out of bounds when the slice is empty (the
`debug_assert_ne!` documents the non-empty precondition); that panic is
modelled by `.error ()`.  Otherwise the result is `none` when
`t < samples[a].x`, and `some a` since `a < samples.len()` always holds. -/
def index_before_at (samples : List PlotPoint) (t : Time) :
    Except Unit (Option Nat) :=
  if samples.length = 0 then
    -- Rust: `samples[a]` with `a = 0` on an empty slice → panic
    .error ()
  else
    let a := ibaLoop samples t 0 samples.length
    if t < Time.ofQ (samples.getD a dummyPoint).x then
      .ok none
    else if a < samples.length then
      .ok (some a)
    else
      .ok none

/-- Rust `SampleBuffer::plot_points` (buffer.rs lines 32-56).  The inner match
arms mirror the Rust `match (from_i, to_i)` with its guards; `&samples[a..b]`
panics when `a > b`, which is modelled by `.error ()`; a panic inside either
`index_before_at` call propagates. -/
def plot_points (samples : List PlotPoint) (from_t to_t : Time) (scale : ℚ) :
    Except Unit (List PlotPoint) :=
  match index_before_at samples from_t, index_before_at samples to_t with
  | .ok from_i, .ok to_i =>
    let len := samples.length
    let slice : Except Unit (List PlotPoint) :=
      match from_i, to_i with
      | some a, some b =>
        if b ≥ len then .ok (samples.drop a)
        else if a ≤ b then .ok ((samples.drop a).take (b - a))
        else .error ()  -- Rust: `&samples[a..b]` with `a > b` → panic
      | none, some b =>
        if b < len then .ok (samples.take b) else .ok samples
      | _, _ => .ok samples
    Except.map (List.map fun p => ⟨p.x, p.y * scale⟩) slice
  | _, _ => .error ()

/-- Rust `SampleBuffer::truncate` (buffer.rs lines 120-134).  `drain(..a+1)`
removes the first `a + 1` samples; the `unwrap` on `index_before_at` is a
panic when it yields `None`, modelled by `none`. -/
def truncate (samples : List PlotPoint) (keep_seconds : ℚ) :
    Option (List PlotPoint) :=
  if samples.length = 0 then
    some samples
  else
    let last_timestamp := (samples.getLast?.getD dummyPoint).x
    let truncate_timestamp := last_timestamp - keep_seconds
    let trigger_timestamp := last_timestamp - keep_seconds
    if (samples.headD dummyPoint).x < trigger_timestamp then
      match index_before_at samples (Time.ofQ truncate_timestamp) with
      | .ok (some a) => some (samples.drop (a + 1))
      | _ => none  -- Rust: `.unwrap()` → panic
    else
      some samples

/-- The samples are sorted by nondecreasing timestamp. -/
def timeSorted (samples : List PlotPoint) : Prop :=
  List.Pairwise (fun p q => p.x ≤ q.x) samples

instance (samples : List PlotPoint) : Decidable (timeSorted samples) :=
  List.instDecidablePairwise samples

/-- Number of samples whose timestamp is at most `t`. -/
def countLE (samples : List PlotPoint) (t : Time) : Nat :=
  samples.countP (fun p => decide (Time.ofQ p.x ≤ t))

/-- What the spec says `plot_points` returns: exactly the points whose `t`
lies in the closed interval `[from_t, to_t]`, in order, each `y` multiplied
by `scale`.  (Spec-side definition, used to compare against the code.) -/
def plotPointsSpec (samples : List PlotPoint) (from_t to_t : Time)
    (scale : ℚ) : List PlotPoint :=
  (samples.filter fun p =>
      decide (from_t ≤ Time.ofQ p.x) && decide (Time.ofQ p.x ≤ to_t)).map
    fun p => ⟨p.x, p.y * scale⟩

/-- What the spec says `truncate` keeps: exactly the points with
`t ≥ last_t − keep_seconds`.  (Spec-side definition.) -/
def truncateSpec (samples : List PlotPoint) (keep_seconds : ℚ) :
    List PlotPoint :=
  match samples.getLast? with
  | none => samples
  | some last => samples.filter fun p => decide (last.x - keep_seconds ≤ p.x)

/-- Timestamp of the sample at index `i`, as an extended-timeline value. -/
def sampleT (samples : List PlotPoint) (i : Nat) : Time :=
  Time.ofQ ((samples.getD i dummyPoint).x)

/-! ## gdbremote.rs — packet framing and the response reader

Byte values used below: `'$'` = 36, `'#'` = 35, `'+'` = 43. -/

/-- Rust `GDBRemoteError` (gdbremote.rs lines 14-23). -/
inductive GDBRemoteError where
  | ioError
  | parseError (msg : String)
  | timeout
  | endOfStream
deriving DecidableEq, Repr

/-- Lowercase hex digit of a value `< 16`, as `format!("{:02x}", _)`
produces it: `0`-`9` → bytes 48-57, `10`-`15` → bytes 97-102. -/
def hexDigitChar (n : Nat) : Nat :=
  if n < 10 then 48 + n else 87 + n

/-- Rust `build_gdb_packet` (gdbremote.rs lines 25-38): `$<payload>#<cc>` with
`cc` the two lowercase hex digits of the wrapping byte sum of the
payload. -/
def build_gdb_packet (data : List Nat) : List Nat :=
  let checksum := data.foldl (fun c b => (c + b) % 256) 0
  36 :: data ++ [35, hexDigitChar (checksum / 16), hexDigitChar (checksum % 16)]

/-- Whether two bytes form a valid UTF-8 string of their own (as checked by
`String::from_utf8` on the two checksum bytes): either both ASCII, or a
single two-byte sequence. -/
def utf8Valid2 (b0 b1 : Nat) : Bool :=
  (b0 < 128 && b1 < 128) || (194 ≤ b0 && b0 ≤ 223 && 128 ≤ b1 && b1 ≤ 191)

/-- Value of one hex digit character, as accepted by
`u8::from_str_radix(_, 16)` (both cases). -/
def hexDigitVal (c : Nat) : Option Nat :=
  if 48 ≤ c ∧ c ≤ 57 then some (c - 48)
  else if 97 ≤ c ∧ c ≤ 102 then some (c - 87)
  else if 65 ≤ c ∧ c ≤ 70 then some (c - 55)
  else none

/-- Rust `u8::from_str_radix(s, 16)` on a two-character string: an optional
leading sign followed by hex digits; with a `-` sign only `-0` fits in a
`u8`, and two digits never overflow. -/
def u8FromStrRadix16 (c0 c1 : Nat) : Option Nat :=
  if c0 = 43 then hexDigitVal c1
  else if c0 = 45 then
    match hexDigitVal c1 with
    | some 0 => some 0
    | _ => none
  else
    match hexDigitVal c0, hexDigitVal c1 with
    | some v0, some v1 => some (16 * v0 + v1)
    | _, _ => none

/-- Rust `parse_gdb_packet` (gdbremote.rs lines 40-82). -/
def parse_gdb_packet (bytes : List Nat) : Except GDBRemoteError (List Nat) :=
  if bytes.length < 4 then
    .error (.parseError "packet too short")
  else if bytes.getD 0 0 ≠ 36 then
    .error (.parseError "missing initial dollar")
  else
    match bytes.findIdx? (fun b => b == 35) with
    | none => .error (.parseError "no final pound found")
    | some pound_i =>
      if bytes.length < pound_i + 3 then
        .error (.parseError "packet too short, cannot hold checksum")
      else
        let contents := (bytes.drop 1).take (pound_i - 1)
        let contents_checksum := contents.foldl (fun c b => (c + b) % 256) 0
        let c0 := bytes.getD (pound_i + 1) 0
        let c1 := bytes.getD (pound_i + 2) 0
        if utf8Valid2 c0 c1 then
          match u8FromStrRadix16 c0 c1 with
          | none => .error (.parseError "could not parse checksum as hex string")
          | some packet_checksum =>
            if contents_checksum ≠ packet_checksum then
              .error (.parseError "checksum did not match")
            else
              .ok contents
        else
          .error (.parseError "could not parse checksum as UTF-8 string")

/-- Rust `Response` (gdbremote.rs lines 93-97). -/
inductive Response where
  | ack
  | packet (data : List Nat)
deriving DecidableEq, Repr

/-- Rust `GDBRemote::eat_ack` (gdbremote.rs lines 174-181): consume a leading
`+`, returning the remaining buffer. -/
def eat_ack (buf : List Nat) : Option (List Nat) :=
  match buf with
  | b :: rest => if b = 43 then some rest else none
  | [] => none

/-- Rust `GDBRemote::eat_packet` (gdbremote.rs lines 183-189): parse a packet at
the front of the buffer and drop its `packet.len() + 4` frame bytes. -/
def eat_packet (buf : List Nat) :
    Except GDBRemoteError (List Nat × List Nat) :=
  match parse_gdb_packet buf with
  | .error e => .error e
  | .ok packet => .ok (packet, buf.drop (packet.length + 4))

/-- One outcome of `TimestampedTCPStream::receive` inside
`feed_buffer_from_stream`: a chunk of bytes read (empty = EOF), a read
timeout (`WouldBlock`/`TimedOut`), or another I/O error. -/
inductive FeedEvent where
  | chunk (bytes : List Nat)
  | wouldBlock
  | ioErr
deriving DecidableEq, Repr

/-- Rust `GDBRemote::feed_buffer_from_stream` (gdbremote.rs lines 130-172),
given the next stream event.  The state is the data buffer together with
whether `last_rx_packet_timestamp` is set (it becomes set when a received
chunk contains `$` or `+`).  The entry deadline check is modelled by the
caller running out of events. -/
def feed_buffer_from_stream (buf : List Nat) (tsKnown : Bool)
    (ev : FeedEvent) : Except GDBRemoteError (List Nat × Bool) :=
  match ev with
  | .chunk [] => .error .endOfStream
  | .chunk received =>
      .ok (buf ++ received,
        tsKnown || received.contains 36 || received.contains 43)
  | .wouldBlock => .error .timeout
  | .ioErr => .error .ioError

/-- Result of `GDBRemote::read_response`: a response (with a known
timestamp), an error, or a panic of the `.expect(…)` on a missing
timestamp. -/
inductive ReadResult where
  | ok (r : Response)
  | err (e : GDBRemoteError)
  | panicked
deriving DecidableEq, Repr

/-- Rust `GDBRemote::read_response` (gdbremote.rs lines 209-235): repeatedly try
to eat an ACK, then a packet (parse failures are silently discarded by the
`if let Ok(…)`), then feed the buffer from the stream; the deadline
computed once at entry corresponds to the finite event list, whose
exhaustion yields `Timeout`. -/
def readResponseLoop (buf : List Nat) (tsKnown : Bool)
    (events : List FeedEvent) : ReadResult :=
  match eat_ack buf with
  | some _ => if tsKnown then .ok .ack else .panicked
  | none =>
    match eat_packet buf with
    | .ok (data, _) => if tsKnown then .ok (.packet data) else .panicked
    | .error _ =>
      match events with
      | [] => .err .timeout
      | e :: rest =>
        match feed_buffer_from_stream buf tsKnown e with
        | .ok (buf2, ts2) => readResponseLoop buf2 ts2 rest
        | .error err => .err err

/-- Does a read result report a `ParseError`? -/
def ReadResult.isParseError : ReadResult → Bool
  | .err (.parseError _) => true
  | _ => false

/-! ## ttstream.rs — timestamp extraction in `receive`/`send` -/

/-- Rust `libc::SOL_SOCKET` on Linux. -/
def SOL_SOCKET : Int := 1

/-- Rust `libc::SO_TIMESTAMPING_NEW` on Linux (also used as
`SCM_TIMESTAMPING_NEW`). -/
def SO_TIMESTAMPING_NEW : Int := 65

/-- A received control message: level, type, and the first `timespec` of
its payload expressed in nanoseconds since the epoch. -/
structure CMsg where
  level : Int
  type_ : Int
  ts : Nat
deriving DecidableEq, Repr

/-- The cmsg scan loop shared by `receive` and `send` (ttstream.rs lines
131-159 and 278-306): the last `SCM_TIMESTAMPING_NEW` control message wins;
others are ignored with a warning. -/
def scanTimestampCmsgs (cmsgs : List CMsg) : Option Nat :=
  cmsgs.foldl
    (fun acc c =>
      if c.level = SOL_SOCKET ∧ c.type_ = SO_TIMESTAMPING_NEW then some c.ts
      else acc)
    none

/-- Rust `TimestampedTCPStream::receive` (ttstream.rs lines 70-180), reduced to
its timestamp decision: with timestamping enabled, a missing
`SCM_TIMESTAMPING` control message is an error (lines 161-167); only with
timestamping disabled is the wall clock used.  Returns the byte count and
a bare `SystemTime` (nanoseconds), with no provenance marker. -/
def TimestampedTCPStream.receive (timestamping_enabled : Bool)
    (cmsgs : List CMsg) (n : Nat) (wallClock : Nat) :
    Except String (Nat × Nat) :=
  if timestamping_enabled then
    match scanTimestampCmsgs cmsgs with
    | some timestamp => .ok (n, timestamp)
    | none => .error "SCM_TIMESTAMPING control message not found"
  else
    .ok (n, wallClock)

/-- Rust `TimestampedTCPStream::send` (ttstream.rs lines 182-328), reduced to
its timestamp decision, with the error return at lines 308-314. -/
def TimestampedTCPStream.send (timestamping_enabled : Bool)
    (cmsgs : List CMsg) (wallClock : Nat) : Except String Nat :=
  if timestamping_enabled then
    match scanTimestampCmsgs cmsgs with
    | some timestamp => .ok timestamp
    | none => .error "SCM_TIMESTAMPING control message not found"
  else
    .ok wallClock

/-! ## sampler/rttsampler.rs — JScope packet schema and decoder -/

/-- Rust `RTTScopePacketFieldType` (rttsampler.rs lines 393-399). -/
inductive RTTScopePacketFieldType where
  | boolean
  | float
  | signed
  | unsigned
deriving DecidableEq, Repr

/-- Rust `RTTScopePacketField` (rttsampler.rs lines 401-405). -/
structure RTTScopePacketField where
  type_ : RTTScopePacketFieldType
  size : Nat
deriving DecidableEq, Repr

/-- Size character of a field description: position in `['1','2','4']`
indexing `[1, 2, 4]` (rttsampler.rs line 414). -/
def fieldSize (c : Char) : Option Nat :=
  if c = '1' then some 1 else if c = '2' then some 2
  else if c = '4' then some 4 else none

/-- Rust `RTTScopePacketField::parse` (rttsampler.rs lines 407-435) on the two
characters of a field description, both taken lowercase. -/
def RTTScopePacketField.parse (c0 c1 : Char) :
    Option RTTScopePacketField :=
  match fieldSize c1.toLower with
  | none => none
  | some size =>
    match c0.toLower, size with
    | 'b', 1 => some ⟨.boolean, 1⟩
    | 'f', 4 => some ⟨.float, 4⟩
    | 'i', _ => some ⟨.signed, size⟩
    | 'u', _ => some ⟨.unsigned, size⟩
    | _, _ => none

/-- An `f32` value as produced by the decoder, kept symbolic: either a
float reassembled from raw little-endian bits, or an integer value widened
to `f32` (booleans decode to the integers 0 and 1). -/
inductive F32Val where
  | ofBits (bits : Nat)
  | ofInt (v : Int)
deriving DecidableEq, Repr

/-- Little-endian value of a byte list (first byte least significant). -/
def leNat (bytes : List Nat) : Nat :=
  bytes.foldr (fun b acc => b + 256 * acc) 0

/-- Twos-complement reading of a `w`-byte little-endian value. -/
def toSigned (w : Nat) (n : Nat) : Int :=
  if n < 2 ^ (8 * w - 1) then (n : Int) else (n : Int) - 2 ^ (8 * w)

/-- Rust `RTTScopePacketField::decode` (rttsampler.rs lines 437-455).  The
guards mirror the Rust match arms; each `try_into().ok()?` fails unless the
slice has the exact width. -/
def RTTScopePacketField.decode (f : RTTScopePacketField)
    (bytes : List Nat) : Option F32Val :=
  match f.type_ with
  | .boolean =>
    match bytes.head? with
    | some b => if b ≠ 0 then some (.ofInt 1) else some (.ofInt 0)
    | none => none
  | .float =>
    if bytes.length = 4 then some (.ofBits (leNat bytes)) else none
  | .signed =>
    if f.size = 1 then
      if bytes.length = 1 then some (.ofInt (toSigned 1 (leNat bytes)))
      else none
    else if f.size = 2 then
      if bytes.length = 2 then some (.ofInt (toSigned 2 (leNat bytes)))
      else none
    else if f.size = 4 then
      if bytes.length = 4 then some (.ofInt (toSigned 4 (leNat bytes)))
      else none
    else none
  | .unsigned =>
    if f.size = 1 then
      if bytes.length = 1 then some (.ofInt (leNat bytes)) else none
    else if f.size = 2 then
      if bytes.length = 2 then some (.ofInt (leNat bytes)) else none
    else if f.size = 4 then
      if bytes.length = 4 then some (.ofInt (leNat bytes)) else none
    else none

/-- Rust `RTTScopePacketStructure` (rttsampler.rs lines 458-462). -/
structure RTTScopePacketStructure where
  has_u32_us_time : Bool
  fields : List RTTScopePacketField
deriving DecidableEq, Repr

/-- Rust `RTTScopePacketStructure::packet_size` (rttsampler.rs lines 465-473). -/
def RTTScopePacketStructure.packet_size (p : RTTScopePacketStructure) :
    Nat :=
  (p.fields.map (fun f => f.size)).sum +
    (if p.has_u32_us_time then 4 else 0)

/-- The field loop of `decode_bytes`: each field consumes its exact byte
width from the front.  `&bytes[0..size]` panics when too few bytes remain,
modelled as `none` (unreachable at the stated packet length). -/
def decodeFields : List RTTScopePacketField → List Nat →
    Option (List F32Val)
  | [], _ => some []
  | f :: fs, bytes =>
    if bytes.length < f.size then none
    else
      match f.decode (bytes.take f.size), decodeFields fs (bytes.drop f.size) with
      | some v, some vs => some (v :: vs)
      | _, _ => none

/-- Rust `RTTScopePacketStructure::decode_bytes` (rttsampler.rs lines 474-494):
with `has_u32_us_time`, the leading 4 bytes are the little-endian `u32`
timestamp (`bytes[0..4]` panics when fewer than 4 bytes are available,
modelled as `none`). -/
def RTTScopePacketStructure.decode_bytes (p : RTTScopePacketStructure)
    (bytes : List Nat) : Option (Option Nat × List F32Val) :=
  if p.has_u32_us_time then
    if bytes.length < 4 then none
    else
      match decodeFields p.fields (bytes.drop 4) with
      | some values => some (some (leNat (bytes.take 4)), values)
      | none => none
  else
    match decodeFields p.fields bytes with
    | some values => some (none, values)
    | none => none

/-- Rust `channel_name.split('_').last()`: the segment after the last
underscore (the whole string when there is none). -/
def afterLastUnderscore (cs : List Char) : List Char :=
  cs.foldl (fun acc c => if c = '_' then [] else acc ++ [c]) []

/-- The `while to_parse.len() >= 2` field loop of
`parse_scope_packet_structure`: chunks of two characters, a single
leftover character is only warned about. -/
def parseFields : List Char → Option (List RTTScopePacketField)
  | c0 :: c1 :: rest =>
    (match RTTScopePacketField.parse c0 c1, parseFields rest with
     | some f, some fs => some (f :: fs)
     | _, _ => none)
  | _ => some []

/-- Rust `parse_scope_packet_structure` (rttsampler.rs lines 497-538): take the
part of the channel name after the last `_`, lowercase it, strip a leading
`t4` (the `u32` microsecond timestamp marker), then parse two-character
fields. -/
def parse_scope_packet_structure (channel_name : List Char) :
    Option RTTScopePacketStructure :=
  match (afterLastUnderscore channel_name).map Char.toLower with
  | 't' :: '4' :: rest => (parseFields rest).map (fun fs => ⟨true, fs⟩)
  | rest => (parseFields rest).map (fun fs => ⟨false, fs⟩)

/-- A field is one of the kind/size combinations the channel-name parser
can produce. -/
def validField (f : RTTScopePacketField) : Prop :=
  (f.type_ = .boolean ∧ f.size = 1)
  ∨ (f.type_ = .float ∧ f.size = 4)
  ∨ (f.type_ = .signed ∧ (f.size = 1 ∨ f.size = 2 ∨ f.size = 4))
  ∨ (f.type_ = .unsigned ∧ (f.size = 1 ∨ f.size = 2 ∨ f.size = 4))

/-! ## sampler worker threads — exit notifications and the fake sampler -/

/-- Rust `Status` (sampler/mod.rs lines 19-25). -/
inductive Status where
  | initializing
  | sampling
  | paused
  | terminated
deriving DecidableEq, Repr

/-- Rust `Notification` (sampler/mod.rs lines 27-32). -/
inductive Notification where
  | newStatus (s : Status)
  | info (msg : String)
  | error (msg : String)
deriving DecidableEq, Repr

/-- How the worker-thread body (`sampler_thread`) finished: normally, with
an `Err` whose debug formatting is `msg`, or by panicking (in which case
unwinding skips the rest of the spawned closure). -/
inductive ThreadOutcome where
  | ok
  | err (msg : String)
  | panicked
deriving DecidableEq, Repr

/-- The spawned-thread wrapper of `FakeSampler::start` (fakesampler.rs
lines 28-44): on an `Err` return it sends `Error(msg)` then
`NewStatus(Terminated)` (send failures are logged, never unwrapped); on
a panic the `if let Err` is never reached. -/
def fakesampler_on_exit : ThreadOutcome → List Notification
  | .ok => []
  | .err msg => [.error msg, .newStatus .terminated]
  | .panicked => []

/-- The spawned-thread wrapper of `MemSampler::start` (memsampler.rs lines
50-72), identical in behaviour to the fake sampler wrapper. -/
def memsampler_on_exit : ThreadOutcome → List Notification
  | .ok => []
  | .err msg => [.error msg, .newStatus .terminated]
  | .panicked => []

/-- The spawned-thread wrapper of `RTTSampler::start` (rttsampler.rs lines
129-154), identical in behaviour to the fake sampler wrapper. -/
def rttsampler_on_exit : ThreadOutcome → List Notification
  | .ok => []
  | .err msg => [.error msg, .newStatus .terminated]
  | .panicked => []

/-- The sample-collection expression of the sampling step of the fake sampler
(fakesampler.rs lines 164-169): `ys[id as usize]` panics when `id` is out
of bounds of the three sines, modelled as `none`. -/
def collectSamples (ys : List ℚ) : List Nat → Option (List (Nat × ℚ))
  | [] => some []
  | id :: rest =>
    match ys[id]? with
    | none => none
    | some y =>
      match collectSamples ys rest with
      | none => none
      | some tl => some ((id, y) :: tl)

/-- One sampling step of `fakesampler::sampler_thread` (fakesampler.rs
lines 156-172) with the three current sine values `y0 y1 y2`: when there
are active ids, build and send the `(id, ys[id])` pairs (`none` models the
out-of-bounds panic); with no active ids nothing is sent. -/
def fake_sample_step (active_ids : List Nat) (y0 y1 y2 : ℚ) :
    Option (List (Nat × ℚ)) :=
  let ys := [y0, y1, y2]
  if active_ids.length > 0 then collectSamples ys active_ids
  else some []

theorem Time.ofQ_le_ofQ {a b : ℚ} : Time.ofQ a ≤ Time.ofQ b ↔ a ≤ b := by
  simp [Time.ofQ]

theorem sampleT_cons_zero (a : PlotPoint) (l : List PlotPoint) :
    sampleT (a :: l) 0 = Time.ofQ a.x := rfl

theorem sampleT_cons_succ (a : PlotPoint) (l : List PlotPoint) (i : Nat) :
    sampleT (a :: l) (i + 1) = sampleT l i := rfl

theorem countLE_cons (a : PlotPoint) (l : List PlotPoint) (t : Time) :
    countLE (a :: l) t =
      countLE l t + if Time.ofQ a.x ≤ t then 1 else 0 := by
  rw [countLE, List.countP_cons, countLE]
  by_cases h : Time.ofQ a.x ≤ t <;> simp [h]

/-- On a time-sorted buffer the samples with timestamp `≤ t` form a prefix:
index `i` is in that prefix exactly when `i < countLE samples t`. -/
theorem sampleT_le_iff_lt_countLE {samples : List PlotPoint} {t : Time}
    (hs : timeSorted samples) {i : Nat} (hi : i < samples.length) :
    sampleT samples i ≤ t ↔ i < countLE samples t := by
  induction samples generalizing i with
  | nil => simp at hi
  | cons a l ih =>
    rw [timeSorted, List.pairwise_cons] at hs
    obtain ⟨ha, hl⟩ := hs
    rw [countLE_cons]
    by_cases hpa : Time.ofQ a.x ≤ t
    · rw [if_pos hpa]
      cases i with
      | zero =>
        rw [sampleT_cons_zero]
        constructor
        · intro; omega
        · intro; exact hpa
      | succ i =>
        simp only [List.length_cons, Nat.add_lt_add_iff_right] at hi
        rw [sampleT_cons_succ, ih hl hi]
        omega
    · have hzero : countLE l t = 0 := by
        rw [countLE, List.countP_eq_zero]
        intro p hp
        simp only [decide_eq_true_eq]
        intro hle
        exact hpa (le_trans (Time.ofQ_le_ofQ.mpr (ha p hp)) hle)
      rw [if_neg hpa, hzero]
      simp only [Nat.not_lt_zero, iff_false, Nat.add_zero]
      cases i with
      | zero => rw [sampleT_cons_zero]; exact hpa
      | succ i =>
        simp only [List.length_cons, Nat.add_lt_add_iff_right] at hi
        rw [sampleT_cons_succ]
        intro hle
        have hmem : l.getD i dummyPoint ∈ l := by
          rw [List.getD_eq_getElem l dummyPoint hi]
          exact List.getElem_mem hi
        exact hpa (le_trans (Time.ofQ_le_ofQ.mpr (ha _ hmem)) hle)

theorem countLE_le_length (samples : List PlotPoint) (t : Time) :
    countLE samples t ≤ samples.length :=
  List.countP_le_length _

/-- The binary-search loop, run on any bracket `[a, b)` that contains the
boundary `countLE samples t`, lands on `countLE − 1` (or on `0` when no
sample is `≤ t`). -/
theorem ibaLoop_spec {samples : List PlotPoint} {t : Time}
    (hs : timeSorted samples) :
    ∀ n a b, b - a ≤ n → a < b → b ≤ samples.length →
      (a < countLE samples t ∨ a = 0) → countLE samples t ≤ b →
      ibaLoop samples t a b =
        if countLE samples t = 0 then 0 else countLE samples t - 1 := by
  intro n
  induction n with
  | zero => intro a b h1 h2; omega
  | succ n ih =>
    intro a b hn hab hb ha hcnt
    rw [ibaLoop]
    by_cases hsplit : a + 1 < b
    · simp only [hsplit, dif_pos]
      set i := (a + b) / 2 with hi
      have hai : a < i := by omega
      have hib : i < b := by omega
      by_cases hcmp : t < Time.ofQ ((samples.getD i dummyPoint).x)
      · -- samples[i].x > t : move b down to i
        have hcnti : countLE samples t ≤ i := by
          by_contra hlt
          exact absurd ((sampleT_le_iff_lt_countLE hs (by omega)).mpr
            (by omega)) (not_le.mpr hcmp)
        simp only [hcmp, if_true]
        exact ih a i (by omega) hai (by omega) ha hcnti
      · -- samples[i].x ≤ t : move a up to i
        have hcnti : i < countLE samples t :=
          (sampleT_le_iff_lt_countLE hs (by omega)).mp (not_lt.mp hcmp)
        simp only [hcmp, if_false]
        exact ih i b (by omega) hib hb (Or.inl hcnti) hcnt
    · simp only [hsplit, dif_neg, not_false_iff]
      by_cases hc0 : countLE samples t = 0
      · rw [if_pos hc0]; omega
      · rw [if_neg hc0]; omega

/-- Rust `index_before_at` on a non-empty sorted buffer: `none` when no sample
has timestamp `≤ t`, otherwise the index of the last such sample. -/
theorem index_before_at_spec {samples : List PlotPoint} {t : Time}
    (hs : timeSorted samples) (hne : samples ≠ []) :
    index_before_at samples t =
      .ok (if countLE samples t = 0 then none
           else some (countLE samples t - 1)) := by
  have hlen : 0 < samples.length := List.length_pos.mpr hne
  have hlen' : ¬ samples.length = 0 := by omega
  rw [index_before_at, if_neg hlen']
  have hloop := ibaLoop_spec hs samples.length 0 samples.length
    (by omega) hlen le_rfl (Or.inr rfl) (countLE_le_length samples t)
  rw [hloop]
  by_cases hzero : countLE samples t = 0
  · rw [if_pos hzero, if_pos hzero]
    have hnle : ¬ sampleT samples 0 ≤ t := by
      rw [sampleT_le_iff_lt_countLE hs hlen, hzero]
      omega
    rw [sampleT] at hnle
    show (if t < Time.ofQ (samples.getD 0 dummyPoint).x then
            (Except.ok none : Except Unit (Option Nat))
          else if 0 < samples.length then Except.ok (some 0)
          else Except.ok none) = Except.ok none
    rw [if_pos (not_le.mp hnle)]
  · rw [if_neg hzero, if_neg hzero]
    have hcnt1 : countLE samples t - 1 < countLE samples t := by omega
    have hclen := countLE_le_length samples t
    have hle : sampleT samples (countLE samples t - 1) ≤ t :=
      (sampleT_le_iff_lt_countLE hs (by omega)).mpr hcnt1
    rw [sampleT] at hle
    show (if t < Time.ofQ (samples.getD (countLE samples t - 1) dummyPoint).x
          then (Except.ok none : Except Unit (Option Nat))
          else if countLE samples t - 1 < samples.length then
            Except.ok (some (countLE samples t - 1))
          else Except.ok none) = Except.ok (some (countLE samples t - 1))
    rw [if_neg (not_lt.mpr hle)]
    rw [if_pos (show countLE samples t - 1 < samples.length by omega)]

theorem Time.ofQ_lt_ofQ {a b : ℚ} : Time.ofQ a < Time.ofQ b ↔ a < b := by
  simp [Time.ofQ]

theorem countLE_mono (samples : List PlotPoint) {t t' : Time} (h : t ≤ t') :
    countLE samples t ≤ countLE samples t' := by
  refine List.countP_mono_left ?_
  intro p _
  simp only [decide_eq_true_eq]
  intro hle
  exact le_trans hle h

/-- If the head already exceeds `t`, no sample at all is `≤ t` on a sorted
buffer. -/
theorem countLE_eq_zero_of_head {a : PlotPoint} {l : List PlotPoint}
    {t : Time} (hs : timeSorted (a :: l)) (ha : ¬ Time.ofQ a.x ≤ t) :
    countLE (a :: l) t = 0 := by
  rw [timeSorted, List.pairwise_cons] at hs
  rw [countLE, List.countP_eq_zero]
  intro p hp
  simp only [decide_eq_true_eq]
  rcases List.mem_cons.mp hp with h | h
  · subst h; exact ha
  · intro hle
    exact ha (le_trans (Time.ofQ_le_ofQ.mpr (hs.1 p h)) hle)

/-- Dropping the `≤ t` prefix of a sorted buffer leaves exactly the samples
with timestamp `> t`. -/
theorem drop_countLE_eq_filter {samples : List PlotPoint} {t : Time}
    (hs : timeSorted samples) :
    samples.drop (countLE samples t) =
      samples.filter (fun p => decide (t < Time.ofQ p.x)) := by
  induction samples with
  | nil => simp
  | cons a l ih =>
    by_cases hpa : Time.ofQ a.x ≤ t
    · rw [countLE_cons, if_pos hpa]
      have hl : timeSorted l := (List.pairwise_cons.mp hs).2
      rw [show countLE l t + 1 = (countLE l t) + 1 from rfl]
      rw [List.drop_succ_cons, List.filter_cons_of_neg (by simpa using hpa),
        ih hl]
    · rw [countLE_eq_zero_of_head hs hpa, List.drop_zero]
      rw [List.filter_cons_of_pos (by simpa using not_le.mp hpa)]
      rw [List.filter_eq_self.mpr ?_]
      intro p hp
      simp only [decide_eq_true_eq]
      have := (List.pairwise_cons.mp hs).1 p hp
      exact lt_of_lt_of_le (not_le.mp hpa) (Time.ofQ_le_ofQ.mpr this)

/-- C2: on a non-empty buffer sorted by nondecreasing `t`, for every query
value `t` (including `±∞`), `index_before_at` returns `None` exactly when
`t < samples[0].x`; otherwise it returns `Some k` with `samples[k].x ≤ t`
and (`k + 1 = len` or `t < samples[k+1].x`), `k` being the largest index
whose timestamp is at most `t`; and for `t ≥ samples[last].x` it returns
the last index. -/
theorem index_before_at_correct (samples : List PlotPoint) (t : Time)
    (hs : timeSorted samples) (hne : samples ≠ []) :
    (index_before_at samples t = .ok none ↔ t < sampleT samples 0)
    ∧ (¬ t < sampleT samples 0 → ∃ k,
        index_before_at samples t = .ok (some k))
    ∧ (∀ k, index_before_at samples t = .ok (some k) →
        sampleT samples k ≤ t
        ∧ (k + 1 = samples.length ∨ t < sampleT samples (k + 1))
        ∧ (∀ j, j < samples.length → sampleT samples j ≤ t → j ≤ k))
    ∧ (sampleT samples (samples.length - 1) ≤ t →
        index_before_at samples t = .ok (some (samples.length - 1))) := by
  have hlen : 0 < samples.length := List.length_pos.mpr hne
  have hspec := index_before_at_spec (t := t) hs hne
  have hclen := countLE_le_length samples t
  have h0 : countLE samples t = 0 ↔ t < sampleT samples 0 := by
    rw [← not_le, sampleT_le_iff_lt_countLE hs hlen]
    omega
  refine ⟨?_, ?_, ?_, ?_⟩
  · rw [hspec]
    by_cases hz : countLE samples t = 0
    · rw [if_pos hz]
      simpa using h0.mp hz
    · rw [if_neg hz]
      constructor
      · intro h; exact absurd h (by simp)
      · intro hlt; exact absurd (h0.mpr hlt) hz
  · intro hnlt
    refine ⟨countLE samples t - 1, ?_⟩
    rw [hspec, if_neg (fun hz => hnlt (h0.mp hz))]
  · intro k hk
    rw [hspec] at hk
    by_cases hz : countLE samples t = 0
    · rw [if_pos hz] at hk; simp at hk
    · rw [if_neg hz] at hk
      have hkk : countLE samples t - 1 = k := by simpa using hk
      subst hkk
      refine ⟨?_, ?_, ?_⟩
      · exact (sampleT_le_iff_lt_countLE hs (by omega)).mpr (by omega)
      · by_cases hful : countLE samples t = samples.length
        · left; omega
        · right
          have : ¬ sampleT samples (countLE samples t - 1 + 1) ≤ t := by
            rw [sampleT_le_iff_lt_countLE hs (by omega)]
            omega
          exact not_le.mp this
      · intro j hj hjle
        have := (sampleT_le_iff_lt_countLE hs hj).mp hjle
        omega
  · intro hlast
    have : samples.length - 1 < countLE samples t :=
      (sampleT_le_iff_lt_countLE hs (by omega)).mp hlast
    have hful : countLE samples t = samples.length := by omega
    rw [hspec, if_neg (by omega)]
    congr 2
    omega

/-- Witness for C2 at the concrete sorted buffer `[(0,1), (1,2)]` and
`t = +∞`. -/
theorem index_before_at_correct_witness :
    index_before_at [(⟨0, 1⟩ : PlotPoint), ⟨1, 2⟩] ⊤ = .ok (some 1) := by
  have h := index_before_at_correct [⟨0, 1⟩, ⟨1, 2⟩] ⊤ (by decide) (by decide)
  exact h.2.2.2 (by decide)

/-- C1 counterexample: on the sorted buffer `[(0,1), (1,2)]` with bounds
`-∞ ≤ +∞` and scale `1`, `plot_points` does not return all points of the
closed interval (it drops the last sample), refuting the claim at this
input. -/
theorem plot_points_claim_counterexample :
    timeSorted [(⟨0, 1⟩ : PlotPoint), ⟨1, 2⟩]
    ∧ (⊥ : Time) ≤ ⊤
    ∧ plot_points [(⟨0, 1⟩ : PlotPoint), ⟨1, 2⟩] ⊥ ⊤ 1 ≠
        .ok (plotPointsSpec [⟨0, 1⟩, ⟨1, 2⟩] ⊥ ⊤ 1) := by
  refine ⟨by decide, bot_le, ?_⟩
  simp +decide [plot_points, index_before_at, ibaLoop, plotPointsSpec]

/-- C1 amended: on a sorted buffer with `from_t ≤ to_t`, `plot_points`
panics when the buffer is empty; otherwise, writing `cf`/`ct` for the
number of samples with timestamp `≤ from_t`/`≤ to_t`, it returns the whole
buffer when `ct = 0`, and otherwise the contiguous sub-range of indices
`[cf − 1, ct − 1)` (clamped at 0), each `y` multiplied by `scale`.  In
particular the last sample with `t ≤ to_t` is excluded and, when
`from_t` falls strictly between samples, one sample with `t < from_t` is
included. -/
theorem plot_points_amended (samples : List PlotPoint) (from_t to_t : Time)
    (scale : ℚ) (hs : timeSorted samples) (hft : from_t ≤ to_t) :
    (samples = [] → plot_points samples from_t to_t scale = .error ())
    ∧ (samples ≠ [] → plot_points samples from_t to_t scale =
        .ok ((if countLE samples to_t = 0 then samples
              else (samples.drop (countLE samples from_t - 1)).take
                  ((countLE samples to_t - 1) -
                    (countLE samples from_t - 1))).map
          fun p => ⟨p.x, p.y * scale⟩)) := by
  constructor
  · intro h
    subst h
    rw [plot_points, index_before_at]
    simp
  · intro hne
    have hf := index_before_at_spec hs hne (t := from_t)
    have ht := index_before_at_spec hs hne (t := to_t)
    have hmono : countLE samples from_t ≤ countLE samples to_t :=
      countLE_mono samples hft
    have hclen := countLE_le_length samples to_t
    rw [plot_points, hf, ht]
    by_cases hct : countLE samples to_t = 0
    · have hcf : countLE samples from_t = 0 := by omega
      rw [if_pos hcf, if_pos hct, if_pos hct]
      rfl
    · rw [if_neg hct, if_neg hct]
      have hblen : countLE samples to_t - 1 < samples.length := by omega
      by_cases hcf : countLE samples from_t = 0
      · rw [if_pos hcf]
        show Except.map _ (if countLE samples to_t - 1 < samples.length
            then Except.ok (samples.take (countLE samples to_t - 1))
            else Except.ok samples) = _
        rw [if_pos hblen, hcf]
        simp [Except.map]
      · rw [if_neg hcf]
        show Except.map _ (if samples.length ≤ countLE samples to_t - 1
            then Except.ok (samples.drop (countLE samples from_t - 1))
            else if countLE samples from_t - 1 ≤ countLE samples to_t - 1
            then Except.ok ((samples.drop (countLE samples from_t - 1)).take
                ((countLE samples to_t - 1) -
                  (countLE samples from_t - 1)))
            else Except.error ()) = _
        rw [if_neg (by omega), if_pos (by omega)]
        rfl

/-- Witness for C1 (amended) at the buffer `[(0,1), (1,2)]`, bounds
`(-∞, +∞)`, scale `2`. -/
theorem plot_points_amended_witness :
    plot_points [(⟨0, 1⟩ : PlotPoint), ⟨1, 2⟩] ⊥ ⊤ 2 = .ok [⟨0, 2⟩] := by
  rw [((plot_points_amended [⟨0, 1⟩, ⟨1, 2⟩] ⊥ ⊤ 2 (by decide) bot_le).2
    (by decide))]
  rw [show countLE [(⟨0, 1⟩ : PlotPoint), ⟨1, 2⟩] ⊤ = 2 from by decide,
    show countLE [(⟨0, 1⟩ : PlotPoint), ⟨1, 2⟩] ⊥ = 0 from by decide]
  norm_num

/-- C3 counterexample: on the sorted buffer `[(-1,0), (0,0), (10,0)]` with
`keep_seconds = 10` (so `last_t − k = 0`), `truncate` drops the point at
`t = 0` even though `0 ≥ last_t − k`, refuting the claim at this input. -/
theorem truncate_claim_counterexample :
    timeSorted [(⟨-1, 0⟩ : PlotPoint), ⟨0, 0⟩, ⟨10, 0⟩]
    ∧ truncate [(⟨-1, 0⟩ : PlotPoint), ⟨0, 0⟩, ⟨10, 0⟩] 10 ≠
        some (truncateSpec [⟨-1, 0⟩, ⟨0, 0⟩, ⟨10, 0⟩] 10) := by
  refine ⟨by decide, ?_⟩
  simp +decide [truncate, index_before_at, ibaLoop, truncateSpec]

/-- C3 amended: on a sorted buffer, when the first timestamp is strictly
below `last_t − keep_seconds`, `truncate` keeps exactly the points with
`t > last_t − keep_seconds` (the boundary point `t = last_t − keep_seconds`
is dropped); otherwise — including on an empty buffer — it is a no-op. -/
theorem truncate_amended (samples : List PlotPoint) (k : ℚ)
    (hs : timeSorted samples) :
    truncate samples k =
      some (if (samples.headD dummyPoint).x <
              (samples.getLast?.getD dummyPoint).x - k
            then samples.filter
              (fun p => decide ((samples.getLast?.getD dummyPoint).x - k < p.x))
            else samples) := by
  rcases List.eq_nil_or_concat samples with hnil | ⟨l, a, hla⟩
  · subst hnil
    simp [truncate]
  · have hne : samples ≠ [] := by subst hla; simp
    have hlen : ¬ samples.length = 0 := by
      have := List.length_pos.mpr hne; omega
    rw [truncate, if_neg hlen]
    by_cases hguard : (samples.headD dummyPoint).x <
        (samples.getLast?.getD dummyPoint).x - k
    · rw [if_pos hguard, if_pos hguard]
      have hcnt1 : 0 < countLE samples
          (Time.ofQ ((samples.getLast?.getD dummyPoint).x - k)) := by
        rw [← sampleT_le_iff_lt_countLE hs (List.length_pos.mpr hne)]
        have hhead : sampleT samples 0 =
            Time.ofQ ((samples.headD dummyPoint).x) := by
          cases samples <;> rfl
        rw [hhead]
        exact Time.ofQ_le_ofQ.mpr (le_of_lt hguard)
      rw [index_before_at_spec hs hne, if_neg (by omega)]
      show some (samples.drop (countLE samples
          (Time.ofQ ((samples.getLast?.getD dummyPoint).x - k)) - 1 + 1)) = _
      rw [show countLE samples
            (Time.ofQ ((samples.getLast?.getD dummyPoint).x - k)) - 1 + 1 =
          countLE samples
            (Time.ofQ ((samples.getLast?.getD dummyPoint).x - k)) from by
        omega]
      rw [drop_countLE_eq_filter hs]
      congr 1
      refine List.filter_congr ?_
      intro p _
      simp [decide_eq_decide, Time.ofQ_lt_ofQ]
    · rw [if_neg hguard, if_neg hguard]

theorem hexDigitChar_lt_128 {n : Nat} (h : n < 16) :
    hexDigitChar n < 128 := by
  rw [hexDigitChar]
  by_cases h10 : n < 10
  · rw [if_pos h10]; omega
  · rw [if_neg h10]; omega

theorem hexDigitChar_ne_pound {n : Nat} (h : n < 16) :
    hexDigitChar n ≠ 35 := by
  rw [hexDigitChar]
  by_cases h10 : n < 10
  · rw [if_pos h10]; omega
  · rw [if_neg h10]; omega

theorem hexDigitChar_ge_48 (n : Nat) : 48 ≤ hexDigitChar n := by
  rw [hexDigitChar]
  by_cases h10 : n < 10
  · rw [if_pos h10]; omega
  · rw [if_neg h10]; omega

theorem hexDigitVal_hexDigitChar {n : Nat} (h : n < 16) :
    hexDigitVal (hexDigitChar n) = some n := by
  by_cases h10 : n < 10
  · rw [hexDigitChar, if_pos h10, hexDigitVal, if_pos (by omega)]
    congr 1
    omega
  · rw [hexDigitChar, if_neg h10, hexDigitVal, if_neg (by omega),
      if_pos (by omega)]
    congr 1
    omega

theorem checksum_lt_256 : ∀ (s : List Nat) (c : Nat), c < 256 →
    s.foldl (fun c b => (c + b) % 256) c < 256 := by
  intro s
  induction s with
  | nil => intro c h; exact h
  | cons b s ih =>
    intro c _
    exact ih _ (Nat.mod_lt _ (by omega))

theorem findIdx?_pound (l r : List Nat) (hl : 35 ∉ l) (i : Nat) :
    List.findIdx? (fun b => b == 35) (l ++ 35 :: r) i =
      some (i + l.length) := by
  induction l generalizing i with
  | nil => simp [List.findIdx?_cons]
  | cons a l ih =>
    have ha : (a == 35) = false := by
      simp only [beq_eq_false_iff_ne]
      intro h
      exact hl (by simp [h])
    rw [List.cons_append, List.findIdx?_cons, ha]
    simp only [Bool.false_eq_true, if_false]
    rw [ih (fun h => hl (List.mem_cons_of_mem a h)) (i + 1)]
    congr 1
    simp only [List.length_cons]
    omega

/-- Parsing a well-formed frame `$<s>#<cc>` with `cc` the two hex digits
of the checksum `cs` of `s` yields exactly `s`. -/
theorem parse_gdb_packet_frame (s : List Nat) (cs : Nat)
    (hpound : (35 : Nat) ∉ s)
    (hcs : s.foldl (fun c b => (c + b) % 256) 0 = cs) (hlt : cs < 256) :
    parse_gdb_packet
      ((36 :: s) ++ 35 :: [hexDigitChar (cs / 16), hexDigitChar (cs % 16)]) =
      .ok s := by
  have hdiv : cs / 16 < 16 := by omega
  have hmod : cs % 16 < 16 := by omega
  rw [parse_gdb_packet]
  have hlenb : ((36 :: s) ++
      35 :: [hexDigitChar (cs / 16), hexDigitChar (cs % 16)]).length =
      s.length + 4 := by
    simp
  rw [if_neg (by rw [hlenb]; omega)]
  rw [if_neg (by
    rw [show ((36 :: s) ++
        35 :: [hexDigitChar (cs / 16), hexDigitChar (cs % 16)]).getD 0 0 =
        36 from rfl]
    omega)]
  rw [findIdx?_pound (36 :: s) _ (by
    intro h
    rcases List.mem_cons.mp h with h | h
    · omega
    · exact hpound h)]
  dsimp only []
  rw [if_neg (by
    rw [hlenb]
    simp only [List.length_cons]
    omega)]
  have hdrop : ((36 :: s) ++
      35 :: [hexDigitChar (cs / 16), hexDigitChar (cs % 16)]).drop 1 =
      s ++ 35 :: [hexDigitChar (cs / 16), hexDigitChar (cs % 16)] := rfl
  have htake : (s ++
      35 :: [hexDigitChar (cs / 16), hexDigitChar (cs % 16)]).take
        (0 + (36 :: s).length - 1) = s := by
    rw [show 0 + (36 :: s).length - 1 = s.length from by simp]
    exact List.take_left s _
  rw [hdrop, htake]
  have hc0 : ((36 :: s) ++
      35 :: [hexDigitChar (cs / 16), hexDigitChar (cs % 16)]).getD
        (0 + (36 :: s).length + 1) 0 = hexDigitChar (cs / 16) := by
    rw [List.getD_append_right _ _ _ _ (by simp)]
    rw [show 0 + (36 :: s).length + 1 - (36 :: s).length = 1 from by
      simp only [List.length_cons]; omega]
    rfl
  have hc1 : ((36 :: s) ++
      35 :: [hexDigitChar (cs / 16), hexDigitChar (cs % 16)]).getD
        (0 + (36 :: s).length + 2) 0 = hexDigitChar (cs % 16) := by
    rw [List.getD_append_right _ _ _ _ (by simp)]
    rw [show 0 + (36 :: s).length + 2 - (36 :: s).length = 2 from by
      simp only [List.length_cons]; omega]
    rfl
  rw [hc0, hc1, hcs]
  have hvalid : utf8Valid2 (hexDigitChar (cs / 16))
      (hexDigitChar (cs % 16)) = true := by
    rw [utf8Valid2]
    simp only [Bool.or_eq_true, Bool.and_eq_true, decide_eq_true_eq]
    left
    exact ⟨hexDigitChar_lt_128 hdiv, hexDigitChar_lt_128 hmod⟩
  rw [if_pos hvalid]
  have hradix : u8FromStrRadix16 (hexDigitChar (cs / 16))
      (hexDigitChar (cs % 16)) = some cs := by
    have h48 := hexDigitChar_ge_48 (cs / 16)
    rw [u8FromStrRadix16, if_neg (by omega), if_neg (by omega),
      hexDigitVal_hexDigitChar hdiv, hexDigitVal_hexDigitChar hmod]
    show some (16 * (cs / 16) + cs % 16) = some cs
    congr 1
    omega
  rw [hradix]
  dsimp only []
  rw [if_neg (fun h => h rfl)]

/-- C4: for every ASCII payload containing neither `$` nor `#`,
`parse_gdb_packet` applied to `build_gdb_packet` of it succeeds and
returns exactly the payload bytes. -/
theorem gdb_packet_roundtrip (s : List Nat) (hascii : ∀ b ∈ s, b < 128)
    (hdollar : (36 : Nat) ∉ s) (hpound : (35 : Nat) ∉ s) :
    parse_gdb_packet (build_gdb_packet s) = .ok s := by
  obtain ⟨cs, hcs⟩ : ∃ c, s.foldl (fun c b => (c + b) % 256) 0 = c :=
    ⟨_, rfl⟩
  have hlt : cs < 256 := by
    rw [← hcs]
    exact checksum_lt_256 s 0 (by omega)
  have hbuild : build_gdb_packet s =
      (36 :: s) ++ 35 :: [hexDigitChar (cs / 16), hexDigitChar (cs % 16)] := by
    simp [build_gdb_packet, hcs]
  rw [hbuild]
  exact parse_gdb_packet_frame s cs hpound hcs hlt

/-- Witness for C4 at the payload `"qC"` = bytes `[113, 67]`. -/
theorem gdb_packet_roundtrip_witness :
    parse_gdb_packet (build_gdb_packet [113, 67]) = .ok [113, 67] :=
  gdb_packet_roundtrip [113, 67] (by decide) (by decide) (by decide)

/-- C5 counterexample: `build_gdb_packet("qC")` does not end in checksum
`"b5"` (bytes `[98, 53]`): the byte sum of `"qC"` is `113 + 67 = 180 =
0xb4`. -/
theorem build_qC_claim_counterexample :
    build_gdb_packet [113, 67] ≠ [36, 113, 67, 35, 98, 53] := by
  decide

/-- C5 amended: `build_gdb_packet("qC")` is exactly the bytes `$qC#b4`,
where `"b4"` = hex(`('q' + 'C') mod 256`) = hex(180). -/
theorem build_qC_amended :
    build_gdb_packet [113, 67] = [36, 113, 67, 35, 98, 52] := by
  decide

/-- Rust `read_response` never surfaces a `ParseError`, whatever the buffered
data and however the stream behaves: `eat_packet` failures are discarded
by the `if let Ok(…)` and the loop keeps feeding. -/
theorem readResponseLoop_never_parseError (buf : List Nat) (ts : Bool)
    (events : List FeedEvent) :
    ReadResult.isParseError (readResponseLoop buf ts events) = false := by
  induction events generalizing buf ts with
  | nil =>
    rw [readResponseLoop]
    rcases hack : eat_ack buf with _ | r
    · rcases hpk : eat_packet buf with er | ⟨d, r2⟩
      · simp [ReadResult.isParseError]
      · cases ts <;> simp [ReadResult.isParseError]
    · cases ts <;> simp [ReadResult.isParseError]
  | cons e rest ih =>
    rw [readResponseLoop]
    rcases hack : eat_ack buf with _ | r
    · rcases hpk : eat_packet buf with er | ⟨d, r2⟩
      · rcases e with bytes | _ | _
        · rcases bytes with _ | ⟨b, bs⟩
          · simp [feed_buffer_from_stream, ReadResult.isParseError]
          · simp only [feed_buffer_from_stream]
            exact ih _ _
        · simp [feed_buffer_from_stream, ReadResult.isParseError]
        · simp [feed_buffer_from_stream, ReadResult.isParseError]
      · cases ts <;> simp [ReadResult.isParseError]
    · cases ts <;> simp [ReadResult.isParseError]

/-- C6 (amended): `read_response` never reports a buffered frame that
fails to parse (checksum mismatches included) as a `ParseError` — such
frames only lead to further feeding; when nothing can be consumed, an
exhausted deadline (computed once at entry) is reported as `Timeout` and a
zero-byte read as `EndOfStream`. -/
theorem read_response_error_reporting (buf : List Nat) (ts : Bool)
    (events : List FeedEvent) :
    ReadResult.isParseError (readResponseLoop buf ts events) = false
    ∧ (eat_ack buf = none → (eat_packet buf).isOk = false →
        readResponseLoop buf ts [] = .err .timeout)
    ∧ (∀ rest, eat_ack buf = none → (eat_packet buf).isOk = false →
        readResponseLoop buf ts (.chunk [] :: rest) = .err .endOfStream) := by
  refine ⟨readResponseLoop_never_parseError buf ts events, ?_, ?_⟩
  · intro hack hpk
    rw [readResponseLoop, hack]
    rcases h : eat_packet buf with er | x
    · rfl
    · rw [h] at hpk
      simp [Except.isOk, Except.toBool] at hpk
  · intro rest hack hpk
    rw [readResponseLoop, hack]
    rcases h : eat_packet buf with er | x
    · rfl
    · rw [h] at hpk
      simp [Except.isOk, Except.toBool] at hpk

/-- Witness for C6 (amended): a buffered frame `$qC#00` whose transmitted
checksum `00` differs from the payload checksum `b4`; with no stream
events left the call reports `Timeout`, not `ParseError`. -/
theorem read_response_error_reporting_witness :
    readResponseLoop [36, 113, 67, 35, 48, 48] true [] = .err .timeout :=
  (read_response_error_reporting [36, 113, 67, 35, 48, 48] true []).2.1
    (by decide) (by decide)

/-- C6 counterexample: with the complete frame `$qC#00` buffered (its
transmitted checksum `00` differs from the mod-256 payload sum `b4`) and
the deadline not yet expired being irrelevant (no events), the call
returns `Timeout` — not the `ParseError` the claim requires. -/
theorem read_response_claim_counterexample :
    readResponseLoop [36, 113, 67, 35, 48, 48] true [] = .err .timeout
    ∧ ReadResult.isParseError
        (readResponseLoop [36, 113, 67, 35, 48, 48] true []) = false := by
  decide

/-- C7 counterexample: with kernel timestamping enabled and the
timestamping control message absent from a receive (and from a send), the
call returns an error — not a successful `Fallback(…)` result. -/
theorem ttstream_claim_counterexample :
    (TimestampedTCPStream.receive true [] 5 77).isOk = false
    ∧ (TimestampedTCPStream.send true [] 77).isOk = false := by
  decide

/-- C7 (amended): when timestamping is enabled on the socket, a missing
`SCM_TIMESTAMPING` control message makes `receive` and `send` fail with an
error; the wall clock is used — successfully — only when timestamping is
not enabled, and the returned timestamp is a bare time value carrying no
`ByTcpStack`/`Fallback` provenance. -/
theorem ttstream_missing_cmsg (enabled : Bool) (cmsgs : List CMsg)
    (n wc : Nat) :
    (enabled = true → scanTimestampCmsgs cmsgs = none →
      TimestampedTCPStream.receive enabled cmsgs n wc =
        .error "SCM_TIMESTAMPING control message not found"
      ∧ TimestampedTCPStream.send enabled cmsgs wc =
        .error "SCM_TIMESTAMPING control message not found")
    ∧ (enabled = false →
      TimestampedTCPStream.receive enabled cmsgs n wc = .ok (n, wc)
      ∧ TimestampedTCPStream.send enabled cmsgs wc = .ok wc) := by
  constructor
  · intro he hscan
    subst he
    rw [TimestampedTCPStream.receive, TimestampedTCPStream.send, hscan]
    exact ⟨rfl, rfl⟩
  · intro he
    subst he
    rw [TimestampedTCPStream.receive, TimestampedTCPStream.send]
    exact ⟨rfl, rfl⟩

/-- Witness for C7 (amended) with timestamping enabled and no control
messages. -/
theorem ttstream_missing_cmsg_witness :
    TimestampedTCPStream.receive true [] 5 77 =
      .error "SCM_TIMESTAMPING control message not found" :=
  ((ttstream_missing_cmsg true [] 5 77).1 rfl rfl).1

theorem fieldSize_cases {c : Char} {n : Nat} (h : fieldSize c = some n) :
    n = 1 ∨ n = 2 ∨ n = 4 := by
  rw [fieldSize] at h
  by_cases h1 : c = '1'
  · rw [if_pos h1] at h; replace h := Option.some.inj h; omega
  · rw [if_neg h1] at h
    by_cases h2 : c = '2'
    · rw [if_pos h2] at h; replace h := Option.some.inj h; omega
    · rw [if_neg h2] at h
      by_cases h4 : c = '4'
      · rw [if_pos h4] at h; replace h := Option.some.inj h; omega
      · rw [if_neg h4] at h; exact absurd h (by simp)

theorem parse_validField {c0 c1 : Char} {f : RTTScopePacketField}
    (h : RTTScopePacketField.parse c0 c1 = some f) : validField f := by
  rw [RTTScopePacketField.parse] at h
  rcases hs : fieldSize c1.toLower with _ | size
  · rw [hs] at h; simp at h
  · simp only [hs] at h
    have hsz := fieldSize_cases hs
    split at h
    · replace h := Option.some.inj h; subst h
      exact Or.inl ⟨rfl, rfl⟩
    · replace h := Option.some.inj h; subst h
      exact Or.inr (Or.inl ⟨rfl, rfl⟩)
    · replace h := Option.some.inj h; subst h
      exact Or.inr (Or.inr (Or.inl ⟨rfl, hsz⟩))
    · replace h := Option.some.inj h; subst h
      exact Or.inr (Or.inr (Or.inr ⟨rfl, hsz⟩))
    · simp at h

theorem parseFields_valid : ∀ (cs : List Char)
    (fs : List RTTScopePacketField), parseFields cs = some fs →
    ∀ f ∈ fs, validField f
  | c0 :: c1 :: rest, fs, h => by
    rw [parseFields] at h
    rcases hp : RTTScopePacketField.parse c0 c1 with _ | f0
    · rw [hp] at h; simp at h
    · rw [hp] at h
      rcases hr : parseFields rest with _ | fs0
      · rw [hr] at h; simp at h
      · rw [hr] at h
        replace h := Option.some.inj h
        subst h
        intro f hf
        rcases List.mem_cons.mp hf with hf | hf
        · subst hf; exact parse_validField hp
        · exact parseFields_valid rest fs0 hr f hf
  | [], fs, h => by
    replace h := Option.some.inj h
    subst h
    intro f hf
    simp at hf
  | [c], fs, h => by
    replace h := Option.some.inj h
    subst h
    intro f hf
    simp at hf

theorem parse_scope_valid {name : List Char} {P : RTTScopePacketStructure}
    (h : parse_scope_packet_structure name = some P) :
    ∀ f ∈ P.fields, validField f := by
  rw [parse_scope_packet_structure] at h
  split at h
  · rcases hp : parseFields _ with _ | fs
    · rw [hp] at h; simp at h
    · rw [hp] at h
      replace h := Option.some.inj (by simpa using h)
      subst h
      exact parseFields_valid _ fs hp
  · rcases hp : parseFields _ with _ | fs
    · rw [hp] at h; simp at h
    · rw [hp] at h
      replace h := Option.some.inj (by simpa using h)
      subst h
      exact parseFields_valid _ fs hp

theorem decodeFields_ok (fields : List RTTScopePacketField)
    (bytes : List Nat) (hv : ∀ f ∈ fields, validField f)
    (hlen : bytes.length = (fields.map (fun f => f.size)).sum) :
    ∃ vs, decodeFields fields bytes = some vs
      ∧ vs.length = fields.length := by
  induction fields generalizing bytes with
  | nil => exact ⟨[], rfl, rfl⟩
  | cons f fs ih =>
    rw [List.map_cons, List.sum_cons] at hlen
    have hvf := hv f (List.mem_cons_self f fs)
    have htl : (bytes.take f.size).length = f.size := by
      rw [List.length_take]
      omega
    have hdec : ∃ v, f.decode (bytes.take f.size) = some v := by
      rw [RTTScopePacketField.decode]
      rcases hvf with ⟨hb, hs⟩ | ⟨hb, hs⟩ | ⟨hb, hs⟩ | ⟨hb, hs⟩
      · simp only [hb]
        rcases hh : (bytes.take f.size).head? with _ | b
        · rw [List.head?_eq_none_iff] at hh
          rw [hh] at htl
          simp [hs] at htl
        · show ∃ v, (if b ≠ 0 then (some (F32Val.ofInt 1) : Option F32Val)
            else some (.ofInt 0)) = some v
          by_cases hz : b ≠ 0
          · rw [if_pos hz]; exact ⟨_, rfl⟩
          · rw [if_neg hz]; exact ⟨_, rfl⟩
      · simp only [hb]
        rw [if_pos (by omega)]
        exact ⟨_, rfl⟩
      · simp only [hb]
        rcases hs with h1 | h2 | h4
        · rw [h1] at htl ⊢
          rw [if_pos rfl, if_pos htl]
          exact ⟨_, rfl⟩
        · rw [h2] at htl ⊢
          rw [if_neg (by omega), if_pos rfl, if_pos htl]
          exact ⟨_, rfl⟩
        · rw [h4] at htl ⊢
          rw [if_neg (by omega), if_neg (by omega), if_pos rfl, if_pos htl]
          exact ⟨_, rfl⟩
      · simp only [hb]
        rcases hs with h1 | h2 | h4
        · rw [h1] at htl ⊢
          rw [if_pos rfl, if_pos htl]
          exact ⟨_, rfl⟩
        · rw [h2] at htl ⊢
          rw [if_neg (by omega), if_pos rfl, if_pos htl]
          exact ⟨_, rfl⟩
        · rw [h4] at htl ⊢
          rw [if_neg (by omega), if_neg (by omega), if_pos rfl, if_pos htl]
          exact ⟨_, rfl⟩
    obtain ⟨v, hvd⟩ := hdec
    obtain ⟨vs, hvs, hlvs⟩ := ih (bytes.drop f.size)
      (fun g hg => hv g (List.mem_cons_of_mem f hg))
      (by rw [List.length_drop]; omega)
    refine ⟨v :: vs, ?_, by simp [hlvs]⟩
    rw [decodeFields, if_neg (by omega), hvd, hvs]

/-- C8: for any schema produced by the JScope channel-name parser and any
byte buffer of length `packet_size()`, `decode_bytes` succeeds, returns
exactly `fields.len()` decoded values, and consumes the leading 4 bytes as
a little-endian `u32` timestamp exactly when `has_u32_us_time` is set. -/
theorem decode_bytes_schema (name : List Char)
    (P : RTTScopePacketStructure)
    (hP : parse_scope_packet_structure name = some P)
    (b : List Nat) (hlen : b.length = P.packet_size) :
    ∃ values, P.decode_bytes b =
        some ((if P.has_u32_us_time then some (leNat (b.take 4)) else none),
          values)
      ∧ values.length = P.fields.length := by
  have hv := parse_scope_valid hP
  rw [RTTScopePacketStructure.packet_size] at hlen
  rw [RTTScopePacketStructure.decode_bytes]
  cases hb : P.has_u32_us_time with
  | true =>
    rw [hb, if_pos rfl] at hlen
    rw [if_pos rfl, if_pos rfl,
      if_neg (show ¬ b.length < 4 by rw [hlen]; omega)]
    obtain ⟨vs, hvs, hl⟩ := decodeFields_ok P.fields (b.drop 4) hv
      (by rw [List.length_drop]; omega)
    rw [hvs]
    exact ⟨vs, rfl, hl⟩
  | false =>
    rw [hb, if_neg (by simp)] at hlen
    rw [if_neg (by simp), if_neg (by simp)]
    obtain ⟨vs, hvs, hl⟩ := decodeFields_ok P.fields b hv (by omega)
    rw [hvs]
    exact ⟨vs, rfl, hl⟩

/-- Witness for C8 at the channel name `J_t4f4i1` (schema: `u32`
timestamp, one `f32` field, one `i8` field, packet size 9) and the byte
buffer `[0, …, 8]`. -/
theorem decode_bytes_schema_witness :
    ∃ values,
      RTTScopePacketStructure.decode_bytes
          ⟨true, [⟨.float, 4⟩, ⟨.signed, 1⟩]⟩ (List.range 9) =
        some (some (leNat ((List.range 9).take 4)), values)
      ∧ values.length = 2 := by
  obtain ⟨vs, hvs, hl⟩ := decode_bytes_schema
    ['J', '_', 't', '4', 'f', '4', 'i', '1']
    ⟨true, [⟨.float, 4⟩, ⟨.signed, 1⟩]⟩ (by decide) (List.range 9)
    (by decide)
  exact ⟨vs, by simpa using hvs, by simpa using hl⟩

/-- C9: in every sampler backend (fake, memory, RTT), when the worker
thread body returns an error, the spawned wrapper emits
`Notification::Error(msg)` followed by `Notification::NewStatus(Terminated)`
in that order; the wrapper ignores send failures instead of unwrapping, so
the thread exits without a panic. -/
theorem worker_error_notifications (msg : String) :
    fakesampler_on_exit (.err msg) =
      [.error msg, .newStatus .terminated]
    ∧ memsampler_on_exit (.err msg) =
      [.error msg, .newStatus .terminated]
    ∧ rttsampler_on_exit (.err msg) =
      [.error msg, .newStatus .terminated] :=
  ⟨rfl, rfl, rfl⟩

theorem collectSamples_oob (ys : List ℚ) (ids : List Nat) (id : Nat)
    (hmem : id ∈ ids) (hlen : ys.length ≤ id) :
    collectSamples ys ids = none := by
  induction ids with
  | nil => simp at hmem
  | cons a rest ih =>
    rw [collectSamples]
    rcases List.mem_cons.mp hmem with h | h
    · subst h
      rw [List.getElem?_eq_none hlen]
    · rcases ha : ys[a]? with _ | y
      · rfl
      · rw [ih h]

/-- C10: if the fake sampler is given an active signal id greater than 2,
the next sampling step indexes the three-element sine array out of bounds
and panics; since the spawned wrapper only handles `Err` returns (a panic
unwinds past it), the worker dies without emitting an `Error` or
`NewStatus(Terminated)` notification. -/
theorem fake_sampler_oob_panic (ids : List Nat) (y0 y1 y2 : ℚ)
    (h : ∃ id ∈ ids, 2 < id) :
    fake_sample_step ids y0 y1 y2 = none
    ∧ fakesampler_on_exit .panicked = [] := by
  obtain ⟨id, hmem, hid⟩ := h
  refine ⟨?_, rfl⟩
  rw [fake_sample_step]
  rw [if_pos (by
    have := List.length_pos.mpr (List.ne_nil_of_mem hmem)
    omega)]
  exact collectSamples_oob _ ids id hmem (by simp; omega)

/-- Witness for C10 at active ids `[3]`. -/
theorem fake_sampler_oob_panic_witness :
    fake_sample_step [3] 0 0 0 = none
    ∧ fakesampler_on_exit .panicked = [] :=
  fake_sampler_oob_panic [3] 0 0 0 ⟨3, by simp, by omega⟩

/-- Witness for C3 (amended) at the buffer `[(0,1), (10,2)]` with
`keep_seconds = 5`. -/
theorem truncate_amended_witness :
    truncate [(⟨0, 1⟩ : PlotPoint), ⟨10, 2⟩] 5 = some [⟨10, 2⟩] := by
  rw [truncate_amended [⟨0, 1⟩, ⟨10, 2⟩] 5 (by decide)]
  norm_num [dummyPoint, List.filter]

end OCDScope
